import Mathlib

/-
Verification development for the CoRT fine-tuning driver
(src/run_finetuning.py).  The training loop, its step counters, metric
registries, gradient handling and dataset/fold plumbing are embedded
shallowly below; theorems at the end of the file settle the spec claims.
-/

namespace CoRT

/-! ## Training-loop state model (src/run_finetuning.py, `run_train`, lines 336-393) -/

/-- Configuration fields of `run_train` that drive the epoch/step structure
(`config.initial_epoch`, `config.epochs`, `config.gradient_accumulation_steps`,
`steps_per_epoch`, `config.skip_early_eval`). -/
structure LoopConfig where
  initial_epoch : ℕ
  epochs : ℕ
  gradient_accumulation_steps : ℕ
  steps_per_epoch : ℕ
  skip_early_eval : Bool
deriving DecidableEq

/-- Modelled from the spec: `tensorflow.keras.metrics.Mean` (external to the
repository).  A running mean holds a total and a count; `update_state` adds a
value, `reset_state` zeroes both, `result` is total/count. -/
structure MeanState where
  total : ℚ
  count : ℕ
deriving DecidableEq

def mean_init : MeanState := ⟨0, 0⟩

def mean_update (m : MeanState) (v : ℚ) : MeanState := ⟨m.total + v, m.count + 1⟩

def mean_update_all (m : MeanState) (vs : List ℚ) : MeanState := vs.foldl mean_update m

def mean_result (m : MeanState) : ℚ := if m.count = 0 then 0 else m.total / (m.count : ℚ)

def mean_reset (_ : MeanState) : MeanState := ⟨0, 0⟩

/-- `create_metric_logs` (lines 222-227) flattens the metric registry to a
name-to-scalar list; the registry is modelled by its `total_loss` running mean
(the other entries are external keras metric objects of the same shape). -/
def create_metric_logs (m : MeanState) : List (String × ℚ) := [("total_loss", mean_result m)]

/-- Line 356: `(step + 1) % config.gradient_accumulation_steps == 0 or num_steps == 0`. -/
def accumulation_step (gas num_steps step : ℕ) : Bool :=
  ((step + 1) % gas == 0) || (num_steps == 0)

/-- Observable events of one run: a consumed micro-batch with its boundary
flag, a per-batch train log (`wandb.log(batch_logs, step=num_steps)`), a
validation log from `evaluate` and an epoch end. -/
inductive Event where
  | micro (epoch step : ℕ) (boundary : Bool)
  | trainLog (num_steps : ℕ)
  | valLog (num_steps : ℕ) (logs : List (String × ℚ))
  | epochEnd (epoch : ℕ)
deriving DecidableEq

/-- Loop-local state of `run_train`: the two step counters, a count of
micro-batches pulled from the training source, the train and validation
metric registries, and the emitted event log. -/
structure LoopState where
  num_steps : ℕ
  local_step : ℕ
  consumed : ℕ
  trainM : MeanState
  validM : MeanState
  log : List Event
deriving DecidableEq

def init_state : LoopState := ⟨0, 0, 0, mean_init, mean_init, []⟩

/-- `evaluate` (lines 308-329): folds every batch of the validation source
into the validation registry, then logs the registry snapshot with every key
prefixed by `val_`, at the current `num_steps`. -/
def evaluate (vals : List ℚ) (s : LoopState) : LoopState :=
  let m := mean_update_all s.validM vals
  { s with validM := m,
           log := s.log ++
             [Event.valLog s.num_steps ((create_metric_logs m).map (fun kv => ("val_" ++ kv.1, kv.2)))] }

/-- `reset_metrics` (lines 331-334): resets every metric state of both
registries. -/
def reset_metrics (s : LoopState) : LoopState :=
  { s with trainM := mean_reset s.trainM, validM := mean_reset s.validM }

/-- One iteration of the inner loop (lines 353-380): pull a micro-batch,
compute the boundary flag, and on a boundary fold the (reduced) loss into the
train registry, log it, and advance both counters; `f epoch step` stands for
the loss value the model returns on that micro-batch. -/
def micro_step (gas : ℕ) (f : ℕ → ℕ → ℚ) (epoch : ℕ) (s : LoopState) (step : ℕ) : LoopState :=
  let b := accumulation_step gas s.num_steps step
  let s1 : LoopState :=
    { s with consumed := s.consumed + 1, log := s.log ++ [Event.micro epoch step b] }
  if b then
    { s1 with trainM := mean_update s1.trainM (f epoch step),
              log := s1.log ++ [Event.trainLog s1.num_steps],
              local_step := s1.local_step + 1,
              num_steps := s1.num_steps + 1 }
  else s1

/-- `for step, input_batches in enumerate(train_dataset.take(n))`: the
training source repeats indefinitely, so `take` yields exactly `n`
micro-batches; the loop is run with fuel `n` from index `i`. -/
def micro_loop (gas : ℕ) (f : ℕ → ℕ → ℚ) (epoch : ℕ) : ℕ → ℕ → LoopState → LoopState
  | _, 0, s => s
  | i, k + 1, s => micro_loop gas f epoch (i + 1) k (micro_step gas f epoch s i)

/-- One epoch (lines 344-392): reset both registries, zero `local_step`, run
`steps_per_epoch * gradient_accumulation_steps` micro-steps, evaluate on the
validation source, and close the epoch. -/
def epoch_body (cfg : LoopConfig) (f : ℕ → ℕ → ℚ) (vals : List ℚ)
    (s : LoopState) (epoch : ℕ) : LoopState :=
  let s1 := { reset_metrics s with local_step := 0 }
  let s2 := micro_loop cfg.gradient_accumulation_steps f epoch 0
    (cfg.steps_per_epoch * cfg.gradient_accumulation_steps) s1
  let s3 := evaluate vals s2
  { s3 with log := s3.log ++ [Event.epochEnd epoch] }

/-- `run_train`'s driver (lines 336-393): an optional early evaluation, then
`for epoch in range(config.initial_epoch, config.epochs)`. -/
def run_train_sim (cfg : LoopConfig) (f : ℕ → ℕ → ℚ) (vals : List ℚ) : LoopState :=
  let s1 := if cfg.skip_early_eval then init_state else evaluate vals init_state
  (List.range' cfg.initial_epoch (cfg.epochs - cfg.initial_epoch)).foldl (epoch_body cfg f vals) s1

/-! ## Gradient accumulation and the boundary step (`train_step`, lines 268-289) -/

/-- A per-parameter gradient: `tape.gradient` returns `None` for parameters
that received no gradient, so a slot is an optional real tensor (modelled by
its scalar entries). -/
abbrev Grad := Option ℝ

/-- Modelled from the spec: `cort.optimization.GradientAccumulator` (external
to the repository).  `accumulate` adds each incoming gradient into its running
sum positionally, tolerating `None` entries. -/
def accumulate_grads (acc grads : List Grad) : List Grad :=
  List.zipWith
    (fun a g =>
      match g with
      | none => a
      | some gv =>
        match a with
        | none => some gv
        | some av => some (av + gv))
    acc grads

/-- Modelled from the spec: `GradientAccumulator.reset()` zeroes all running
sums (slots that never held a gradient stay `None`). -/
def reset_accumulated (acc : List Grad) : List Grad :=
  acc.map (fun g => g.map (fun _ => (0 : ℝ)))

/-- `tf.clip_by_global_norm`'s global norm: the root of the sum of squares
over the non-`None` entries. -/
noncomputable def global_norm (ts : List Grad) : ℝ :=
  Real.sqrt ((ts.map (fun t =>
    match t with
    | none => 0
    | some x => x ^ 2)).sum)

/-- `tf.clip_by_global_norm(t_list, clip_norm)`: each entry becomes
`t * clip_norm / max(global_norm, clip_norm)`; `None` entries pass through. -/
noncomputable def clip_by_global_norm (ts : List Grad) (clip_norm : ℝ) : List Grad :=
  ts.map (Option.map (fun x => x * clip_norm / max (global_norm ts) clip_norm))

/-- `train_step` (lines 268-289), restricted to its gradient pipeline: the
micro-batch gradients `grads` (produced by the external model/tape) are
accumulated; when `take_step` holds, the accumulated gradients are divided by
`gradient_accumulation_steps`, clipped by global norm 1.0, handed to the
external optimizer `opt` (`optimizer.apply_gradients`), and the accumulator is
reset.  The result is the new accumulator state and parameter vector. -/
noncomputable def train_step (gas : ℕ) (opt : List Grad → List ℝ → List ℝ)
    (acc : List Grad) (params : List ℝ) (grads : List Grad) (take_step : Bool) :
    List Grad × List ℝ :=
  let acc1 := accumulate_grads acc grads
  if take_step then
    let reduced := acc1.map (Option.map (fun g => g / (gas : ℝ)))
    let clipped := clip_by_global_norm reduced 1
    let params1 := opt clipped params
    (reset_accumulated acc1, params1)
  else
    (acc1, params)

/-! ## Distributed reduction (`strategy_reduce_mean`, lines 248-253) -/

/-- Modelled from the spec: `strategy.reduce(tf.distribute.ReduceOp.MEAN, v)`
(external to the repository) computes the arithmetic mean of the per-replica
values. -/
def reduce_mean (vs : List ℚ) : ℚ := vs.sum / (vs.length : ℚ)

/-- `strategy_reduce_mean` (lines 248-253): both the unscaled loss and every
named output are reduced across replicas with `ReduceOp.MEAN`. -/
def strategy_reduce_mean (unscaled_loss : List ℚ) (outputs : List (String × List ℚ)) :
    ℚ × List (String × ℚ) :=
  (reduce_mean unscaled_loss, outputs.map (fun kv => (kv.1, reduce_mean kv.2)))

/-! ## Class-weight tables and rearrangement (`class_weight_map_fn`, lines 118-151) -/

/-- A class-weight dict as produced in Python: association list from class id
to weight (keys distinct, as in a `dict`). -/
abbrev ClassWeightDict := List (ℕ × ℚ)

/-- `_calc_cw_tensor` (lines 119-128): sort the dict keys, require them to be
exactly `0..C-1`, and build the weight tensor indexed by class; on a gap the
`ValueError` branch fires (the Python message also interpolates the dict). -/
def calc_cw_tensor (cw : ClassWeightDict) : Except String (List ℚ) :=
  let class_ids := (cw.map Prod.fst).insertionSort (· ≤ ·)
  if class_ids = List.range class_ids.length then
    Except.ok (class_ids.map (fun c => ((List.lookup c cw).getD 0)))
  else
    Except.error
      ("Expected `class_weight` to be a dict with keys from 0 to one less" ++
       "than the number of classes, found")

/-- A label batch entering `_rearrange_cw`: either a rank-1 tensor of class
indices or a rank-2 tensor of per-class scores/one-hot rows. -/
inductive LabelBatch where
  | oneD (xs : List ℤ)
  | twoD (xss : List (List ℚ))
deriving DecidableEq

def batch_rank : LabelBatch → ℕ
  | .oneD _ => 1
  | .twoD _ => 2

/-- `tf.shape(labels)[1]` for a rank-2 batch (all rows of one tensor share a
width). -/
def batch_width : LabelBatch → ℕ
  | .oneD _ => 0
  | .twoD xss => (xss.headD []).length

/-- `tf.argmax(row)`: index of the largest entry, first occurrence on ties. -/
def argmax_go : List ℚ → ℕ → ℕ → ℚ → ℕ
  | [], _, best, _ => best
  | x :: xs, i, best, bv => if bv < x then argmax_go xs (i + 1) i x else argmax_go xs (i + 1) best bv

def argmax_idx : List ℚ → ℕ
  | [] => 0
  | x :: xs => argmax_go xs 1 0 x

/-- `tf.argmax(labels, axis=1)` on a rank-2 batch. -/
def batch_argmax : LabelBatch → List ℤ
  | .oneD xs => xs
  | .twoD xss => xss.map (fun r => ((argmax_idx r : ℕ) : ℤ))

/-- `tf.cast(q, tf.int32)` on a float scalar truncates toward zero. -/
def cast_to_int (q : ℚ) : ℤ := if 0 ≤ q then ⌊q⌋ else ⌈q⌉

/-- `tf.cast(tf.reshape(labels, (-1,)), tf.int32)`: flatten, then cast. -/
def flatten_cast : LabelBatch → List ℤ
  | .oneD xs => xs
  | .twoD xss => xss.flatten.map cast_to_int

/-- `tf.gather(t, i)` for a scalar index (indices are in range in every use in
the file; out-of-range reads, which raise in TensorFlow, are totalized to 0). -/
def gather_q (t : List ℚ) (i : ℤ) : ℚ :=
  if 0 ≤ i then t.getD i.toNat 0 else 0

/-- `_rearrange_cw` (lines 133-141): if the batch has rank 2 and width > 1 the
class indices come from a row-wise arg-max, otherwise the batch is flattened
and cast to indices; the weights are gathered from the class-weight tensor. -/
def rearrange_cw (labels : LabelBatch) (cw_tensor : List ℚ) : List ℚ :=
  let y_classes :=
    if batch_rank labels = 2 ∧ 1 < batch_width labels then batch_argmax labels
    else flatten_cast labels
  y_classes.map (gather_q cw_tensor)

/-- The spec's wording for the rearranger (spec section 4.2): a
two-dimensional batch of width > 1 is reduced to class indices via arg-max,
any other batch is treated as class indices directly; the output gathers the
table at each example's class id. -/
def spec_class_indices : LabelBatch → List ℤ
  | .oneD xs => xs
  | .twoD xss =>
    if 1 < (xss.headD []).length then xss.map (fun r => ((argmax_idx r : ℕ) : ℤ))
    else xss.flatten.map cast_to_int

/-! ## Fold splitting and class-weight computation (`splits_into_fold`, lines 61-115) -/

/-- `np.unique(y)`: the distinct values of `y` in ascending order. -/
def sorted_unique (ys : List ℕ) : List ℕ := ys.dedup.insertionSort (· ≤ ·)

/-- Modelled from the spec: `sklearn.utils.class_weight.compute_class_weight`
with the `balanced` policy (external to the repository) returns, aligned with
the sorted unique classes, `n_samples / (n_classes * count(class))`. -/
def balanced_class_weights (ys : List ℕ) : List ℚ :=
  let classes := sorted_unique ys
  classes.map (fun c => (ys.length : ℚ) / ((classes.length : ℚ) * (ys.count c : ℚ)))

/-- `dict(enumerate(ws))` (lines 77 and 79): the weight at position `i` is
keyed by `i`, not by the class value it was computed from. -/
def dict_enumerate (ws : List ℚ) : ClassWeightDict := ws.enum

/-- `input_ids[indices]` row gather (token-id rows). -/
def gather_rows (xs : List (List ℤ)) (idx : List ℕ) : List (List ℤ) :=
  idx.map (fun j => xs.getD j [])

/-- `sections[indices]` / `labels[indices]` gather. -/
def gather_nat (xs : List ℕ) (idx : List ℕ) : List ℕ :=
  idx.map (fun j => xs.getD j 0)

/-- The training/validation arrays, per-fold step count and class-weight
tables returned for the selected fold (lines 68-112, eager mode). -/
structure FoldedDatasetOutput where
  train_input_ids : List (List ℤ)
  train_sections : List ℕ
  train_labels : List ℕ
  valid_input_ids : List (List ℤ)
  valid_sections : List ℕ
  valid_labels : List ℕ
  steps_per_epoch : ℕ
  sections_cw : ClassWeightDict
  labels_cw : ClassWeightDict
deriving DecidableEq

/-- The body run for the selected `(train_indices, valid_indices)` pair
(lines 68-112): gather the arrays, compute
`len(train) // batch_size // gradient_accumulation_steps`, and build both
balanced class-weight dicts by enumeration. -/
def select_fold (batch_size gas : ℕ) (input_ids : List (List ℤ))
    (sections labels : List ℕ) (tv : List ℕ × List ℕ) : FoldedDatasetOutput :=
  let train_sections := gather_nat sections tv.1
  let train_labels := gather_nat labels tv.1
  { train_input_ids := gather_rows input_ids tv.1
    train_sections := train_sections
    train_labels := train_labels
    valid_input_ids := gather_rows input_ids tv.2
    valid_sections := gather_nat sections tv.2
    valid_labels := gather_nat labels tv.2
    steps_per_epoch := (gather_rows input_ids tv.1).length / batch_size / gas
    sections_cw := dict_enumerate (balanced_class_weights train_sections)
    labels_cw := dict_enumerate (balanced_class_weights train_labels) }

/-- Line 114's `ValueError` message:
`'Invalid current fold number: {} out of total {} folds'`. -/
def invalid_fold_message (cf : ℤ) (k : ℕ) : String :=
  "Invalid current fold number: " ++ toString cf ++ " out of total " ++ toString k ++ " folds"

/-- The `for index, (train_indices, valid_indices) in enumerate(fold.split(...))`
loop of lines 64-115: every index other than `config.current_fold` is
skipped; if no index matches, the `ValueError` is raised. -/
def splits_into_fold_go (cf : ℤ) (k : ℕ) (body : List ℕ × List ℕ → FoldedDatasetOutput) :
    ℕ → List (List ℕ × List ℕ) → Except String FoldedDatasetOutput
  | _, [] => Except.error (invalid_fold_message cf k)
  | i, tv :: rest =>
    if (i : ℤ) = cf then Except.ok (body tv)
    else splits_into_fold_go cf k body (i + 1) rest

/-- `splits_into_fold` (lines 61-115): `splits` is the list of
`(train_indices, valid_indices)` pairs yielded by the external
`StratifiedKFold(n_splits=num_k_fold).split` (exactly `num_k_fold` of them). -/
def splits_into_fold (current_fold : ℤ) (num_k_fold batch_size gas : ℕ)
    (input_ids : List (List ℤ)) (sections labels : List ℕ)
    (splits : List (List ℕ × List ℕ)) : Except String FoldedDatasetOutput :=
  splits_into_fold_go current_fold num_k_fold
    (select_fold batch_size gas input_ids sections labels) 0 splits

/-! ## Input wrapping (`wrap_inputs`, lines 255-266) -/

/-- A Python value entering the model wrapper: a tensor leaf or a tuple. -/
inductive PyVal where
  | leaf (n : ℕ)
  | tup (xs : List PyVal)

/-- `wrap_inputs` (lines 255-266).  With `config.include_sections` the inputs
are returned unchanged, with no arity check.  Otherwise a 3-tuple
`(input_ids, (_, labels), (_, cw))` or a 2-tuple `(input_ids, (_, labels))`
is unpacked; any other arity raises the `ValueError` of line 266, and a
2- or 3-tuple whose components do not destructure raises Python's unpack
`TypeError`. -/
def wrap_inputs (include_sections : Bool) (inputs : List PyVal) : Except String (List PyVal) :=
  if include_sections then Except.ok inputs
  else if inputs.length = 3 then
    match inputs with
    | [input_ids, PyVal.tup [_, labels], PyVal.tup [_, cw]] => Except.ok [input_ids, labels, cw]
    | _ => Except.error ("TypeError: cannot unpack")
  else if inputs.length = 2 then
    match inputs with
    | [input_ids, PyVal.tup [_, labels]] => Except.ok [input_ids, labels]
    | _ => Except.error ("TypeError: cannot unpack")
  else
    Except.error
      ("Number of inputs must be 2 or 3. Received " ++ toString inputs.length ++ " instead")

/-! ## Event counting helpers -/

def is_val_log : Event → Bool
  | .valLog _ _ => true
  | _ => false

def is_train_log : Event → Bool
  | .trainLog _ => true
  | _ => false

def count_val_logs (l : List Event) : ℕ := l.countP is_val_log

def count_train_logs (l : List Event) : ℕ := l.countP is_train_log

/-! ## Lemmas about the gradient pipeline -/

/-- C2: `train_step` gradient flow.  On every micro-step the incoming
gradients are added to the accumulator.  Exactly when `take_step` holds, the
accumulated gradients are divided by `gradient_accumulation_steps`, clipped by
global norm with threshold 1.0, handed to the optimizer, and the accumulator
is reset; on a non-boundary step the optimizer is not invoked (parameters are
returned untouched) and the accumulator keeps its accumulated value. -/
theorem c2_train_step_boundary_effects (gas : ℕ) (opt : List Grad → List ℝ → List ℝ)
    (acc : List Grad) (params : List ℝ) (grads : List Grad) :
    train_step gas opt acc params grads true
      = (reset_accumulated (accumulate_grads acc grads),
         opt (clip_by_global_norm
                ((accumulate_grads acc grads).map (Option.map (fun g => g / (gas : ℝ)))) 1)
             params)
    ∧ train_step gas opt acc params grads false
      = (accumulate_grads acc grads, params) := by
  constructor <;> rfl

/-! ## Lemmas about the distributed reduction -/

theorem reduce_mean_replicate (n : ℕ) (v : ℚ) (hn : 0 < n) :
    reduce_mean (List.replicate n v) = v := by
  unfold reduce_mean
  rw [List.sum_replicate, List.length_replicate, nsmul_eq_mul]
  have hne : (n : ℚ) ≠ 0 := Nat.cast_ne_zero.mpr hn.ne'
  field_simp

/-- C4: `strategy_reduce_mean` reduces the loss and every named output by
arithmetic mean across replicas; a value replicated identically across `n`
replicas reduces to itself, and (for a non-zero value and more than one
replica) not to `n` times itself. -/
theorem c4_distributed_mean_reduction (n : ℕ) (v : ℚ) (keys : List String) (g : String → ℚ)
    (hn : 0 < n) :
    strategy_reduce_mean (List.replicate n v) (keys.map (fun k => (k, List.replicate n (g k))))
      = (v, keys.map (fun k => (k, g k)))
    ∧ (∀ w : ℚ, w ≠ 0 → 1 < n → reduce_mean (List.replicate n w) ≠ (n : ℚ) * w) := by
  constructor
  · unfold strategy_reduce_mean
    rw [reduce_mean_replicate n v hn, List.map_map]
    refine Prod.ext rfl ?_
    refine List.map_congr_left (fun k _ => ?_)
    simp only [Function.comp_apply]
    rw [reduce_mean_replicate n (g k) hn]
  · intro w hw hn1 hcontra
    rw [reduce_mean_replicate n w hn] at hcontra
    have h1 : (1 : ℚ) * w = (n : ℚ) * w := by rw [one_mul]; exact hcontra
    have h2 : (1 : ℚ) = (n : ℚ) := mul_right_cancel₀ hw h1
    have h3 : (n : ℚ) ≠ 1 := by
      exact_mod_cast Nat.ne_of_gt hn1
    exact h3 h2.symm

/-- Closed witness for C4 at `n = 3`, `v = 2`, one named output. -/
theorem c4_distributed_mean_reduction_witness :
    strategy_reduce_mean (List.replicate 3 (2 : ℚ))
        (["probs"].map (fun k => (k, List.replicate 3 ((fun _ => (5 : ℚ)) k))))
      = ((2 : ℚ), ["probs"].map (fun k => (k, (fun _ => (5 : ℚ)) k)))
    ∧ reduce_mean (List.replicate 3 (1 : ℚ)) ≠ (3 : ℚ) * 1 := by
  have h := c4_distributed_mean_reduction 3 2 ["probs"] (fun _ => (5 : ℚ)) (by decide)
  exact ⟨h.1, h.2 1 (by decide) (by decide)⟩

/-! ## Lemmas about the class-weight rearranger -/

/-- C5: `_rearrange_cw` returns, for every class-weight tensor and label
batch, the table gathered at each example's class index, where a
two-dimensional batch of width greater than one is reduced to indices by
row-wise arg-max and any other batch is used as indices directly; on the
concrete table `{0: 2.0, 1: 0.5}` the one-hot batch `[[1,0],[0,1]]` and the
index batch `[0,1]` both yield `[2.0, 0.5]`. -/
theorem c5_class_weight_rearrange :
    (∀ (t : List ℚ) (labels : LabelBatch),
        rearrange_cw labels t = (spec_class_indices labels).map (gather_q t))
    ∧ calc_cw_tensor [(0, 2), (1, 1/2)] = Except.ok [2, 1/2]
    ∧ rearrange_cw (LabelBatch.twoD [[1, 0], [0, 1]]) [2, 1/2] = [2, 1/2]
    ∧ rearrange_cw (LabelBatch.oneD [0, 1]) [2, 1/2] = [2, 1/2]
    ∧ rearrange_cw (LabelBatch.twoD [[1, 0], [0, 1]]) [2, 1/2]
        = rearrange_cw (LabelBatch.oneD [0, 1]) [2, 1/2] := by
  refine ⟨?_, rfl, rfl, rfl, rfl⟩
  intro t labels
  cases labels with
  | oneD xs =>
    simp [rearrange_cw, spec_class_indices, batch_rank, flatten_cast]
  | twoD xss =>
    simp [rearrange_cw, spec_class_indices, batch_rank, batch_width, batch_argmax, flatten_cast]

/-! ## Lemmas about the input wrapper -/

/-- C9 counterexample: with `config.include_sections` enabled, `wrap_inputs`
returns its inputs unchanged without any arity check, so an input tuple of
arity 1 (neither 2 nor 3) passes through with no error raised — refuting the
claim that every such tuple makes the wrapper raise. -/
theorem c9_wrap_inputs_counterexample :
    wrap_inputs true [PyVal.leaf 0] = Except.ok [PyVal.leaf 0]
    ∧ ([PyVal.leaf 0] : List PyVal).length ≠ 2
    ∧ ([PyVal.leaf 0] : List PyVal).length ≠ 3 :=
  ⟨rfl, by decide, by decide⟩

/-- C9 amended: when `include_sections` is disabled, every input tuple whose
arity is neither 2 nor 3 raises the `ValueError` reporting the received
arity, and well-formed tuples of arity 2 or 3 are unpacked without error;
when `include_sections` is enabled, inputs of any arity pass through
unchanged with no check. -/
theorem c9_wrap_inputs_amended (inputs : List PyVal) :
    wrap_inputs true inputs = Except.ok inputs
    ∧ (inputs.length ≠ 2 → inputs.length ≠ 3 →
        wrap_inputs false inputs
          = Except.error
              ("Number of inputs must be 2 or 3. Received " ++ toString inputs.length ++ " instead"))
    ∧ (∀ input_ids s l sc c,
        wrap_inputs false [input_ids, PyVal.tup [s, l], PyVal.tup [sc, c]]
          = Except.ok [input_ids, l, c])
    ∧ (∀ input_ids s l,
        wrap_inputs false [input_ids, PyVal.tup [s, l]] = Except.ok [input_ids, l]) := by
  refine ⟨rfl, ?_, fun input_ids s l sc c => rfl, fun input_ids s l => rfl⟩
  intro h2 h3
  unfold wrap_inputs
  rw [if_neg (by decide), if_neg h3, if_neg h2]

/-- Closed witness for C9's amended theorem at a concrete arity-1 input. -/
theorem c9_wrap_inputs_amended_witness :
    wrap_inputs false [PyVal.leaf 7]
      = Except.error
          ("Number of inputs must be 2 or 3. Received " ++
           toString ([PyVal.leaf 7] : List PyVal).length ++ " instead")
    ∧ wrap_inputs true [PyVal.leaf 7] = Except.ok [PyVal.leaf 7] := by
  have h := c9_wrap_inputs_amended [PyVal.leaf 7]
  exact ⟨h.2.1 (by decide) (by decide), h.1⟩

/-! ## Lemmas about fold selection -/

theorem splits_into_fold_go_hit (cf : ℤ) (k : ℕ)
    (body : List ℕ × List ℕ → FoldedDatasetOutput) :
    ∀ (splits : List (List ℕ × List ℕ)) (i j : ℕ) (hj : j < splits.length),
      (i : ℤ) + (j : ℤ) = cf →
      splits_into_fold_go cf k body i splits = Except.ok (body (splits.get ⟨j, hj⟩)) := by
  intro splits
  induction splits with
  | nil => intro i j hj; exact absurd hj (Nat.not_lt_zero j)
  | cons tv rest ih =>
    intro i j hj hcf
    cases j with
    | zero =>
      simp only [splits_into_fold_go]
      rw [if_pos (by omega)]
      rfl
    | succ j0 =>
      simp only [splits_into_fold_go]
      rw [if_neg (by omega)]
      have := ih (i + 1) j0 (Nat.lt_of_succ_lt_succ hj) (by push_cast; omega)
      simpa using this

theorem splits_into_fold_go_miss (cf : ℤ) (k : ℕ)
    (body : List ℕ × List ℕ → FoldedDatasetOutput) :
    ∀ (splits : List (List ℕ × List ℕ)) (i : ℕ),
      (cf < (i : ℤ) ∨ (i : ℤ) + (splits.length : ℤ) ≤ cf) →
      splits_into_fold_go cf k body i splits = Except.error (invalid_fold_message cf k) := by
  intro splits
  induction splits with
  | nil => intro i _; rfl
  | cons tv rest ih =>
    intro i hrange
    simp only [splits_into_fold_go]
    rw [if_neg (by simp only [List.length_cons] at hrange; omega)]
    refine ih (i + 1) ?_
    simp only [List.length_cons] at hrange
    push_cast at hrange ⊢
    omega

/-- C8: `splits_into_fold` returns exactly the processed split of the
requested fold index whenever `0 ≤ current_fold < num_k_fold` (the splitter
yields `num_k_fold` splits), and for any index outside that range it fails
with the `ValueError` whose message names the invalid index and the total
fold count. -/
theorem c8_fold_selection (current_fold : ℤ) (num_k_fold batch_size gas : ℕ)
    (input_ids : List (List ℤ)) (sections labels : List ℕ)
    (splits : List (List ℕ × List ℕ)) (hlen : splits.length = num_k_fold) :
    (∀ (_h0 : 0 ≤ current_fold) (hk : current_fold.toNat < splits.length),
      splits_into_fold current_fold num_k_fold batch_size gas input_ids sections labels splits
        = Except.ok (select_fold batch_size gas input_ids sections labels
            (splits.get ⟨current_fold.toNat, hk⟩)))
    ∧ (current_fold < 0 ∨ (num_k_fold : ℤ) ≤ current_fold →
        splits_into_fold current_fold num_k_fold batch_size gas input_ids sections labels splits
          = Except.error (invalid_fold_message current_fold num_k_fold))
    ∧ invalid_fold_message current_fold num_k_fold
        = "Invalid current fold number: " ++ toString current_fold ++ " out of total " ++
          toString num_k_fold ++ " folds" := by
  refine ⟨?_, ?_, rfl⟩
  · intro h0 hk
    exact splits_into_fold_go_hit current_fold num_k_fold _ splits 0 current_fold.toNat hk
      (by omega)
  · intro hrange
    refine splits_into_fold_go_miss current_fold num_k_fold _ splits 0 ?_
    rcases hrange with h | h
    · exact Or.inl (by omega)
    · exact Or.inr (by rw [hlen]; omega)

/-- Closed witness for C8: an in-range fold index returns that fold's split,
and the out-of-range index 7 over 2 folds fails with the formatted message. -/
theorem c8_fold_selection_witness :
    splits_into_fold 1 2 1 1 [] [] [] [([0], [1]), ([1], [0])]
      = Except.ok (select_fold 1 1 [] [] [] ([1], [0]))
    ∧ splits_into_fold 7 2 1 1 [] [] [] [([0], [1]), ([1], [0])]
      = Except.error (invalid_fold_message 7 2) := by
  have h1 := c8_fold_selection 1 2 1 1 [] [] [] [([0], [1]), ([1], [0])] rfl
  have h7 := c8_fold_selection 7 2 1 1 [] [] [] [([0], [1]), ([1], [0])] rfl
  exact ⟨h1.1 (by decide) (by decide), h7.2.1 (Or.inr (by decide))⟩

/-! ## Lemmas about splitter-produced class-weight tables -/

theorem lookup_enumFrom (ws : List ℚ) :
    ∀ (n i : ℕ), i < ws.length → List.lookup (n + i) (List.enumFrom n ws) = some (ws.getD i 0) := by
  induction ws with
  | nil => intro n i hi; exact absurd hi (Nat.not_lt_zero i)
  | cons w rest ih =>
    intro n i hi
    cases i with
    | zero => simp [List.enumFrom, List.lookup]
    | succ i0 =>
      have hne : ((n + (i0 + 1) == n) = false) := by
        simp only [beq_eq_false_iff_ne, ne_eq]
        omega
      simp only [List.enumFrom, List.lookup, hne]
      have := ih (n + 1) i0 (Nat.lt_of_succ_lt_succ hi)
      rw [show n + (i0 + 1) = n + 1 + i0 by omega]
      simpa using this

theorem lookup_enum (ws : List ℚ) (i : ℕ) (hi : i < ws.length) :
    List.lookup i ws.enum = some (ws.getD i 0) := by
  have := lookup_enumFrom ws 0 i hi
  simpa using this

/-- `calc_cw_tensor` applied to any enumerated weight list succeeds and
returns that list: the keys sort to `0..C-1`, the contiguity check passes,
and the gathered tensor is the original weight vector. -/
theorem calc_cw_tensor_dict_enumerate (ws : List ℚ) :
    calc_cw_tensor (dict_enumerate ws) = Except.ok ws := by
  unfold calc_cw_tensor dict_enumerate
  have hkeys : (ws.enum.map Prod.fst) = List.range ws.length := List.enum_map_fst ws
  rw [hkeys, (List.sorted_le_range ws.length).insertionSort_eq]
  simp only [List.length_range]
  rw [if_pos trivial]
  refine congrArg Except.ok ?_
  refine List.ext_getElem (by simp) ?_
  intro i h1 h2
  have hi : i < ws.length := by simpa using h2
  simp only [List.getElem_map, List.getElem_range]
  rw [lookup_enum ws i hi, Option.getD_some, List.getD_eq_getElem ws 0 hi]

/-- C10: the fold splitter builds both class-weight tables by enumerating the
balanced weights of the sorted unique class values, so the key set is always
exactly `{0, ..., C-1}` and the non-contiguous-key error branch of
`class_weight_map_fn` can never fire on a splitter-produced table; when the
training labels' class ids are themselves non-contiguous (here `{0, 2}`), the
weights end up keyed by positions `0, 1` — the weight computed for class 2
sits under key 1, and key 2 (the id the gather would use) is absent. -/
theorem c10_splitter_cw_keys :
    (∀ (batch_size gas : ℕ) (input_ids : List (List ℤ)) (sections labels : List ℕ)
        (tv : List ℕ × List ℕ),
      (select_fold batch_size gas input_ids sections labels tv).labels_cw
        = dict_enumerate (balanced_class_weights (gather_nat labels tv.1))
      ∧ (select_fold batch_size gas input_ids sections labels tv).sections_cw
        = dict_enumerate (balanced_class_weights (gather_nat sections tv.1)))
    ∧ (∀ ws : List ℚ, (dict_enumerate ws).map Prod.fst = List.range ws.length)
    ∧ (∀ ys : List ℕ,
        calc_cw_tensor (dict_enumerate (balanced_class_weights ys))
          = Except.ok (balanced_class_weights ys))
    ∧ sorted_unique [0, 2, 2] = [0, 2]
    ∧ dict_enumerate (balanced_class_weights [0, 2, 2]) = [(0, 3/2), (1, 3/4)]
    ∧ List.lookup 2 (dict_enumerate (balanced_class_weights [0, 2, 2])) = none
    ∧ List.lookup 1 (dict_enumerate (balanced_class_weights [0, 2, 2])) = some (3/4) := by
  have hdict : dict_enumerate (balanced_class_weights [0, 2, 2]) = [(0, 3/2), (1, 3/4)] := by
    unfold balanced_class_weights dict_enumerate
    norm_num [sorted_unique, List.dedup, List.insertionSort, List.orderedInsert,
      List.count_cons, List.enum, List.enumFrom]
  refine ⟨fun batch_size gas input_ids sections labels tv => ⟨rfl, rfl⟩,
    fun ws => List.enum_map_fst ws,
    fun ys => calc_cw_tensor_dict_enumerate (balanced_class_weights ys),
    by decide, hdict, ?_, ?_⟩
  · rw [hdict]; rfl
  · rw [hdict]; rfl

/-! ## Basic lemmas about single loop transitions -/

theorem micro_step_num_steps (gas : ℕ) (f : ℕ → ℕ → ℚ) (epoch : ℕ) (s : LoopState) (i : ℕ) :
    (micro_step gas f epoch s i).num_steps
      = s.num_steps + (if accumulation_step gas s.num_steps i then 1 else 0) := by
  unfold micro_step
  by_cases h : accumulation_step gas s.num_steps i <;> simp [h]

theorem micro_step_local_step (gas : ℕ) (f : ℕ → ℕ → ℚ) (epoch : ℕ) (s : LoopState) (i : ℕ) :
    (micro_step gas f epoch s i).local_step
      = s.local_step + (if accumulation_step gas s.num_steps i then 1 else 0) := by
  unfold micro_step
  by_cases h : accumulation_step gas s.num_steps i <;> simp [h]

theorem micro_step_consumed (gas : ℕ) (f : ℕ → ℕ → ℚ) (epoch : ℕ) (s : LoopState) (i : ℕ) :
    (micro_step gas f epoch s i).consumed = s.consumed + 1 := by
  unfold micro_step
  by_cases h : accumulation_step gas s.num_steps i <;> simp [h]

theorem micro_step_validM (gas : ℕ) (f : ℕ → ℕ → ℚ) (epoch : ℕ) (s : LoopState) (i : ℕ) :
    (micro_step gas f epoch s i).validM = s.validM := by
  unfold micro_step
  by_cases h : accumulation_step gas s.num_steps i <;> simp [h]

theorem micro_step_log (gas : ℕ) (f : ℕ → ℕ → ℚ) (epoch : ℕ) (s : LoopState) (i : ℕ) :
    (micro_step gas f epoch s i).log
      = s.log ++
        (if accumulation_step gas s.num_steps i then
          [Event.micro epoch i (accumulation_step gas s.num_steps i), Event.trainLog s.num_steps]
        else [Event.micro epoch i (accumulation_step gas s.num_steps i)]) := by
  unfold micro_step
  by_cases h : accumulation_step gas s.num_steps i <;> simp [h]

/-! ## Lemmas about the inner micro-batch loop -/

theorem micro_loop_num_steps_le (gas : ℕ) (f : ℕ → ℕ → ℚ) (epoch : ℕ) :
    ∀ (k i : ℕ) (s : LoopState), s.num_steps ≤ (micro_loop gas f epoch i k s).num_steps := by
  intro k
  induction k with
  | zero => intro i s; exact le_refl _
  | succ k0 ih =>
    intro i s
    refine le_trans ?_ (ih (i + 1) (micro_step gas f epoch s i))
    rw [micro_step_num_steps]
    exact Nat.le_add_right _ _

theorem micro_loop_consumed (gas : ℕ) (f : ℕ → ℕ → ℚ) (epoch : ℕ) :
    ∀ (k i : ℕ) (s : LoopState), (micro_loop gas f epoch i k s).consumed = s.consumed + k := by
  intro k
  induction k with
  | zero => intro i s; rfl
  | succ k0 ih =>
    intro i s
    show (micro_loop gas f epoch (i + 1) k0 (micro_step gas f epoch s i)).consumed = _
    rw [ih (i + 1) (micro_step gas f epoch s i), micro_step_consumed]
    omega

theorem micro_loop_validM (gas : ℕ) (f : ℕ → ℕ → ℚ) (epoch : ℕ) :
    ∀ (k i : ℕ) (s : LoopState), (micro_loop gas f epoch i k s).validM = s.validM := by
  intro k
  induction k with
  | zero => intro i s; rfl
  | succ k0 ih =>
    intro i s
    show (micro_loop gas f epoch (i + 1) k0 (micro_step gas f epoch s i)).validM = _
    rw [ih (i + 1) (micro_step gas f epoch s i), micro_step_validM]

theorem micro_loop_log_append (gas : ℕ) (f : ℕ → ℕ → ℚ) (epoch : ℕ) :
    ∀ (k i : ℕ) (s : LoopState), ∃ t, (micro_loop gas f epoch i k s).log = s.log ++ t := by
  intro k
  induction k with
  | zero => intro i s; exact ⟨[], by simp [micro_loop]⟩
  | succ k0 ih =>
    intro i s
    obtain ⟨t, ht⟩ := ih (i + 1) (micro_step gas f epoch s i)
    refine ⟨(if accumulation_step gas s.num_steps i then
        [Event.micro epoch i (accumulation_step gas s.num_steps i), Event.trainLog s.num_steps]
      else [Event.micro epoch i (accumulation_step gas s.num_steps i)]) ++ t, ?_⟩
    show (micro_loop gas f epoch (i + 1) k0 (micro_step gas f epoch s i)).log = _
    rw [ht, micro_step_log, List.append_assoc]

/-- Micro events produced by the loop when the global step counter is already
positive: each one belongs to the starting log or is a fresh event of this
epoch, at an index at least `i`, whose boundary flag is exactly the modular
condition. -/
theorem micro_loop_micro_mem_pos (gas : ℕ) (f : ℕ → ℕ → ℚ) (epoch : ℕ) :
    ∀ (k i : ℕ) (s : LoopState), 1 ≤ s.num_steps →
      ∀ (e j : ℕ) (b : Bool), Event.micro e j b ∈ (micro_loop gas f epoch i k s).log →
        Event.micro e j b ∈ s.log ∨ (e = epoch ∧ i ≤ j ∧ b = ((j + 1) % gas == 0)) := by
  intro k
  induction k with
  | zero => intro i s _ e j b hmem; exact Or.inl hmem
  | succ k0 ih =>
    intro i s hs e j b hmem
    have hpos : 1 ≤ (micro_step gas f epoch s i).num_steps := by
      rw [micro_step_num_steps]; omega
    have hflag : accumulation_step gas s.num_steps i = ((i + 1) % gas == 0) := by
      unfold accumulation_step
      have hzero : (s.num_steps == 0) = false := by
        simp only [beq_eq_false_iff_ne, ne_eq]; omega
      rw [hzero, Bool.or_false]
    rcases ih (i + 1) (micro_step gas f epoch s i) hpos e j b hmem with hin | hnew
    · rw [micro_step_log] at hin
      rcases List.mem_append.mp hin with hold | hfresh
      · exact Or.inl hold
      · right
        have hev : Event.micro e j b = Event.micro epoch i (accumulation_step gas s.num_steps i) := by
          by_cases hb : accumulation_step gas s.num_steps i
          · rw [if_pos hb] at hfresh
            rcases List.mem_cons.mp hfresh with h1 | h2
            · exact h1
            · exact absurd (List.mem_singleton.mp h2) (by intro hx; exact Event.noConfusion hx)
          · rw [if_neg hb] at hfresh
            exact List.mem_singleton.mp hfresh
        injection hev with he hj hb
        exact ⟨he, hj ▸ le_refl i, by rw [hb, hflag, hj]⟩
    · exact Or.inr ⟨hnew.1, le_trans (Nat.le_succ i) hnew.2.1, hnew.2.2⟩

/-- Micro events of the first executed epoch, which starts with
`num_steps = 0`: the very first micro-step is always flagged as a boundary,
and every other event is flagged exactly by the modular condition. -/
theorem micro_loop_micro_mem_start (gas : ℕ) (f : ℕ → ℕ → ℚ) (epoch : ℕ)
    (k : ℕ) (s : LoopState) (hs : s.num_steps = 0) (e j : ℕ) (b : Bool)
    (hmem : Event.micro e j b ∈ (micro_loop gas f epoch 0 k s).log) :
    Event.micro e j b ∈ s.log
    ∨ (e = epoch ∧ (b = true ↔ ((j + 1) % gas = 0 ∨ j = 0))) := by
  cases k with
  | zero => exact Or.inl hmem
  | succ k0 =>
    have hflag0 : accumulation_step gas s.num_steps 0 = true := by
      unfold accumulation_step
      rw [hs]
      simp
    have hpos : 1 ≤ (micro_step gas f epoch s 0).num_steps := by
      rw [micro_step_num_steps, hflag0]
      simp
    have hmem0 :
        Event.micro e j b ∈ (micro_loop gas f epoch 1 k0 (micro_step gas f epoch s 0)).log :=
      hmem
    rcases micro_loop_micro_mem_pos gas f epoch k0 1 (micro_step gas f epoch s 0) hpos e j b hmem0
      with hin | hnew
    · rw [micro_step_log, hflag0] at hin
      simp only [if_true] at hin
      rcases List.mem_append.mp hin with hold | hfresh
      · exact Or.inl hold
      · rcases List.mem_cons.mp hfresh with hev | h2
        · injection hev with he hj hb
          refine Or.inr ⟨he, ?_⟩
          rw [hb, hj]
          simp
        · exact absurd (List.mem_singleton.mp h2) (by intro hx; exact Event.noConfusion hx)
    · obtain ⟨he, hj1, hbv⟩ := hnew
      refine Or.inr ⟨he, ?_⟩
      rw [hbv]
      constructor
      · intro hbeq
        exact Or.inl (beq_iff_eq.mp hbeq)
      · intro hor
        rcases hor with hmod | hj0
        · exact beq_iff_eq.mpr hmod
        · exact absurd hj0 (by omega)

/-! ## Lemmas about `evaluate` and `epoch_body` -/

theorem evaluate_num_steps (vals : List ℚ) (s : LoopState) :
    (evaluate vals s).num_steps = s.num_steps := rfl

theorem evaluate_local_step (vals : List ℚ) (s : LoopState) :
    (evaluate vals s).local_step = s.local_step := rfl

theorem evaluate_log (vals : List ℚ) (s : LoopState) :
    (evaluate vals s).log
      = s.log ++
        [Event.valLog s.num_steps
          [("val_" ++ "total_loss", mean_result (mean_update_all s.validM vals))]] := rfl

theorem epoch_body_num_steps (cfg : LoopConfig) (f : ℕ → ℕ → ℚ) (vals : List ℚ)
    (s : LoopState) (epoch : ℕ) :
    (epoch_body cfg f vals s epoch).num_steps
      = (micro_loop cfg.gradient_accumulation_steps f epoch 0
          (cfg.steps_per_epoch * cfg.gradient_accumulation_steps)
          { reset_metrics s with local_step := 0 }).num_steps := rfl

theorem epoch_body_log (cfg : LoopConfig) (f : ℕ → ℕ → ℚ) (vals : List ℚ)
    (s : LoopState) (epoch : ℕ) :
    (epoch_body cfg f vals s epoch).log
      = (evaluate vals (micro_loop cfg.gradient_accumulation_steps f epoch 0
          (cfg.steps_per_epoch * cfg.gradient_accumulation_steps)
          { reset_metrics s with local_step := 0 })).log ++ [Event.epochEnd epoch] := rfl

theorem epoch_body_num_steps_le (cfg : LoopConfig) (f : ℕ → ℕ → ℚ) (vals : List ℚ)
    (s : LoopState) (epoch : ℕ) :
    s.num_steps ≤ (epoch_body cfg f vals s epoch).num_steps := by
  rw [epoch_body_num_steps]
  exact micro_loop_num_steps_le cfg.gradient_accumulation_steps f epoch _ 0
    { reset_metrics s with local_step := 0 }

theorem micro_loop_num_steps_pos_start (gas : ℕ) (f : ℕ → ℕ → ℚ) (epoch : ℕ)
    (k : ℕ) (s : LoopState) (hs : s.num_steps = 0) (hk : 1 ≤ k) :
    1 ≤ (micro_loop gas f epoch 0 k s).num_steps := by
  cases k with
  | zero => exact absurd hk (by omega)
  | succ k0 =>
    have hflag0 : accumulation_step gas s.num_steps 0 = true := by
      unfold accumulation_step
      rw [hs]
      simp
    have hpos : 1 ≤ (micro_step gas f epoch s 0).num_steps := by
      rw [micro_step_num_steps, hflag0]
      simp
    exact le_trans hpos (micro_loop_num_steps_le gas f epoch k0 1 (micro_step gas f epoch s 0))

/-- Micro events of one epoch body run from a state with a positive global
step counter. -/
theorem epoch_body_micro_mem_pos (cfg : LoopConfig) (f : ℕ → ℕ → ℚ) (vals : List ℚ)
    (s : LoopState) (epoch : ℕ) (hs : 1 ≤ s.num_steps) (e j : ℕ) (b : Bool)
    (hmem : Event.micro e j b ∈ (epoch_body cfg f vals s epoch).log) :
    Event.micro e j b ∈ s.log
    ∨ (e = epoch ∧ b = ((j + 1) % cfg.gradient_accumulation_steps == 0)) := by
  rw [epoch_body_log, evaluate_log] at hmem
  rcases List.mem_append.mp hmem with hmem1 | hend
  · rcases List.mem_append.mp hmem1 with hmem2 | hval
    · have hs1 : 1 ≤ (LoopState.mk s.num_steps 0 s.consumed (mean_reset s.trainM)
          (mean_reset s.validM) s.log).num_steps := hs
      rcases micro_loop_micro_mem_pos cfg.gradient_accumulation_steps f epoch
          (cfg.steps_per_epoch * cfg.gradient_accumulation_steps) 0
          { reset_metrics s with local_step := 0 } hs e j b hmem2 with hin | hnew
      · exact Or.inl hin
      · exact Or.inr ⟨hnew.1, hnew.2.2⟩
    · exact absurd (List.mem_singleton.mp hval) (by intro hx; exact Event.noConfusion hx)
  · exact absurd (List.mem_singleton.mp hend) (by intro hx; exact Event.noConfusion hx)

/-- Micro events of the first executed epoch body, run from a state with
`num_steps = 0`. -/
theorem epoch_body_micro_mem_start (cfg : LoopConfig) (f : ℕ → ℕ → ℚ) (vals : List ℚ)
    (s : LoopState) (epoch : ℕ) (hs : s.num_steps = 0) (e j : ℕ) (b : Bool)
    (hmem : Event.micro e j b ∈ (epoch_body cfg f vals s epoch).log) :
    Event.micro e j b ∈ s.log
    ∨ (e = epoch ∧
        (b = true ↔ ((j + 1) % cfg.gradient_accumulation_steps = 0 ∨ j = 0))) := by
  rw [epoch_body_log, evaluate_log] at hmem
  rcases List.mem_append.mp hmem with hmem1 | hend
  · rcases List.mem_append.mp hmem1 with hmem2 | hval
    · exact micro_loop_micro_mem_start cfg.gradient_accumulation_steps f epoch
        (cfg.steps_per_epoch * cfg.gradient_accumulation_steps)
        { reset_metrics s with local_step := 0 } hs e j b hmem2
    · exact absurd (List.mem_singleton.mp hval) (by intro hx; exact Event.noConfusion hx)
  · exact absurd (List.mem_singleton.mp hend) (by intro hx; exact Event.noConfusion hx)

/-! ## Lemmas about the epoch fold -/

theorem epoch_fold_num_steps_le (cfg : LoopConfig) (f : ℕ → ℕ → ℚ) (vals : List ℚ) :
    ∀ (l : List ℕ) (s : LoopState),
      s.num_steps ≤ ((l.foldl (epoch_body cfg f vals) s)).num_steps := by
  intro l
  induction l with
  | nil => intro s; exact le_refl _
  | cons ep rest ih =>
    intro s
    exact le_trans (epoch_body_num_steps_le cfg f vals s ep) (ih (epoch_body cfg f vals s ep))

theorem epoch_fold_micro_mem (cfg : LoopConfig) (f : ℕ → ℕ → ℚ) (vals : List ℚ) :
    ∀ (l : List ℕ) (s : LoopState), 1 ≤ s.num_steps →
      ∀ (e j : ℕ) (b : Bool), Event.micro e j b ∈ ((l.foldl (epoch_body cfg f vals) s)).log →
        Event.micro e j b ∈ s.log
        ∨ (e ∈ l ∧ b = ((j + 1) % cfg.gradient_accumulation_steps == 0)) := by
  intro l
  induction l with
  | nil => intro s _ e j b hmem; exact Or.inl hmem
  | cons ep rest ih =>
    intro s hs e j b hmem
    have hpos : 1 ≤ (epoch_body cfg f vals s ep).num_steps :=
      le_trans hs (epoch_body_num_steps_le cfg f vals s ep)
    rcases ih (epoch_body cfg f vals s ep) hpos e j b hmem with hin | hnew
    · rcases epoch_body_micro_mem_pos cfg f vals s ep hs e j b hin with hold | hfresh
      · exact Or.inl hold
      · exact Or.inr ⟨hfresh.1 ▸ List.mem_cons_self ep rest, hfresh.2⟩
    · exact Or.inr ⟨List.mem_cons_of_mem ep hnew.1, hnew.2⟩

/-! ## C6 and C7: step counters and metric resets -/

/-- C6: `local_step` is zeroed at the start of every epoch (an epoch's
outcome is independent of the incoming `local_step`), `num_steps` is
monotonically non-decreasing through every micro-step, micro-loop, epoch and
epoch sequence (it is never reset), and both counters advance by exactly one
on accumulation-boundary micro-steps and are untouched by non-boundary
micro-steps, by `evaluate` and by `reset_metrics`. -/
theorem c6_step_counters :
    (∀ (cfg : LoopConfig) (f : ℕ → ℕ → ℚ) (vals : List ℚ) (s : LoopState) (epoch x : ℕ),
      epoch_body cfg f vals { s with local_step := x } epoch = epoch_body cfg f vals s epoch)
    ∧ (∀ (gas : ℕ) (f : ℕ → ℕ → ℚ) (epoch : ℕ) (s : LoopState) (i : ℕ),
        (micro_step gas f epoch s i).num_steps
          = s.num_steps + (if accumulation_step gas s.num_steps i then 1 else 0)
        ∧ (micro_step gas f epoch s i).local_step
          = s.local_step + (if accumulation_step gas s.num_steps i then 1 else 0))
    ∧ (∀ (vals : List ℚ) (s : LoopState),
        (evaluate vals s).num_steps = s.num_steps ∧ (evaluate vals s).local_step = s.local_step)
    ∧ (∀ s : LoopState,
        (reset_metrics s).num_steps = s.num_steps ∧ (reset_metrics s).local_step = s.local_step)
    ∧ (∀ (gas : ℕ) (f : ℕ → ℕ → ℚ) (epoch k i : ℕ) (s : LoopState),
        s.num_steps ≤ (micro_loop gas f epoch i k s).num_steps)
    ∧ (∀ (cfg : LoopConfig) (f : ℕ → ℕ → ℚ) (vals : List ℚ) (s : LoopState) (epoch : ℕ),
        s.num_steps ≤ (epoch_body cfg f vals s epoch).num_steps)
    ∧ (∀ (cfg : LoopConfig) (f : ℕ → ℕ → ℚ) (vals : List ℚ) (l : List ℕ) (s : LoopState),
        s.num_steps ≤ ((l.foldl (epoch_body cfg f vals) s)).num_steps) := by
  refine ⟨?_, fun gas f epoch s i => ⟨micro_step_num_steps gas f epoch s i,
      micro_step_local_step gas f epoch s i⟩,
    fun vals s => ⟨rfl, rfl⟩, fun s => ⟨rfl, rfl⟩,
    fun gas f epoch k i s => micro_loop_num_steps_le gas f epoch k i s,
    fun cfg f vals s epoch => epoch_body_num_steps_le cfg f vals s epoch,
    fun cfg f vals l s => epoch_fold_num_steps_le cfg f vals l s⟩
  intro cfg f vals s epoch x
  cases s
  rfl

/-- C7: the metric registries leak nothing across resets: an epoch's outcome
is independent of the incoming train/validation metric states (both are reset
at the start of every epoch); the validation registry is in the reset state
when each evaluation pass begins (the initial registry for the early pass,
and the epoch-start reset carried untouched through the micro loop for the
end-of-epoch pass); and a snapshot taken after reset-then-update depends only
on the post-reset inputs. -/
theorem c7_metric_reset_isolation :
    (∀ (cfg : LoopConfig) (f : ℕ → ℕ → ℚ) (vals : List ℚ) (s : LoopState) (epoch : ℕ)
        (m1 m2 : MeanState),
      epoch_body cfg f vals { s with trainM := m1, validM := m2 } epoch
        = epoch_body cfg f vals s epoch)
    ∧ init_state.validM = mean_init
    ∧ (∀ m : MeanState, mean_reset m = mean_init)
    ∧ (∀ (cfg : LoopConfig) (f : ℕ → ℕ → ℚ) (s : LoopState) (epoch : ℕ),
        (micro_loop cfg.gradient_accumulation_steps f epoch 0
          (cfg.steps_per_epoch * cfg.gradient_accumulation_steps)
          { reset_metrics s with local_step := 0 }).validM = mean_init)
    ∧ (∀ (m : MeanState) (pre post : List ℚ),
        create_metric_logs (mean_update_all (mean_reset (mean_update_all m pre)) post)
          = create_metric_logs (mean_update_all mean_init post)) := by
  refine ⟨?_, rfl, fun m => rfl, ?_, fun m pre post => rfl⟩
  · intro cfg f vals s epoch m1 m2
    cases s
    rfl
  · intro cfg f s epoch
    rw [micro_loop_validM]
    rfl

/-! ## Counting validation and train logs -/

theorem count_val_logs_append (l1 l2 : List Event) :
    count_val_logs (l1 ++ l2) = count_val_logs l1 + count_val_logs l2 := by
  simp [count_val_logs, List.countP_append]

theorem count_train_logs_append (l1 l2 : List Event) :
    count_train_logs (l1 ++ l2) = count_train_logs l1 + count_train_logs l2 := by
  simp [count_train_logs, List.countP_append]

theorem micro_step_count_val (gas : ℕ) (f : ℕ → ℕ → ℚ) (epoch : ℕ) (s : LoopState) (i : ℕ) :
    count_val_logs (micro_step gas f epoch s i).log = count_val_logs s.log := by
  rw [micro_step_log, count_val_logs_append]
  by_cases h : accumulation_step gas s.num_steps i <;>
    simp [h, count_val_logs, List.countP_cons, is_val_log]

theorem micro_loop_count_val (gas : ℕ) (f : ℕ → ℕ → ℚ) (epoch : ℕ) :
    ∀ (k i : ℕ) (s : LoopState),
      count_val_logs (micro_loop gas f epoch i k s).log = count_val_logs s.log := by
  intro k
  induction k with
  | zero => intro i s; rfl
  | succ k0 ih =>
    intro i s
    show count_val_logs (micro_loop gas f epoch (i + 1) k0 (micro_step gas f epoch s i)).log = _
    rw [ih (i + 1) (micro_step gas f epoch s i), micro_step_count_val]

theorem evaluate_count_val (vals : List ℚ) (s : LoopState) :
    count_val_logs (evaluate vals s).log = count_val_logs s.log + 1 := by
  rw [evaluate_log, count_val_logs_append]
  simp [count_val_logs, List.countP_cons, is_val_log]

theorem epoch_body_count_val (cfg : LoopConfig) (f : ℕ → ℕ → ℚ) (vals : List ℚ)
    (s : LoopState) (epoch : ℕ) :
    count_val_logs (epoch_body cfg f vals s epoch).log = count_val_logs s.log + 1 := by
  rw [epoch_body_log, count_val_logs_append, evaluate_count_val, micro_loop_count_val]
  have hend : count_val_logs [Event.epochEnd epoch] = 0 := by
    simp [count_val_logs, List.countP_cons, is_val_log]
  rw [hend]
  rfl

theorem epoch_fold_count_val (cfg : LoopConfig) (f : ℕ → ℕ → ℚ) (vals : List ℚ) :
    ∀ (l : List ℕ) (s : LoopState),
      count_val_logs ((l.foldl (epoch_body cfg f vals) s)).log
        = count_val_logs s.log + l.length := by
  intro l
  induction l with
  | nil => intro s; rfl
  | cons ep rest ih =>
    intro s
    show count_val_logs ((rest.foldl (epoch_body cfg f vals) (epoch_body cfg f vals s ep))).log = _
    rw [ih (epoch_body cfg f vals s ep), epoch_body_count_val]
    simp [List.length_cons]
    omega

theorem epoch_body_consumed (cfg : LoopConfig) (f : ℕ → ℕ → ℚ) (vals : List ℚ)
    (s : LoopState) (epoch : ℕ) :
    (epoch_body cfg f vals s epoch).consumed
      = s.consumed + cfg.steps_per_epoch * cfg.gradient_accumulation_steps := by
  show (micro_loop cfg.gradient_accumulation_steps f epoch 0
      (cfg.steps_per_epoch * cfg.gradient_accumulation_steps)
      { reset_metrics s with local_step := 0 }).consumed = _
  rw [micro_loop_consumed]
  rfl

/-! ## The single-accumulation special case `gradient_accumulation_steps = 1` -/

theorem accumulation_step_one (ns i : ℕ) : accumulation_step 1 ns i = true := by
  unfold accumulation_step
  simp [Nat.mod_one]

theorem micro_loop_one (f : ℕ → ℕ → ℚ) (epoch : ℕ) :
    ∀ (k i : ℕ) (s : LoopState),
      (micro_loop 1 f epoch i k s).num_steps = s.num_steps + k
      ∧ count_train_logs (micro_loop 1 f epoch i k s).log = count_train_logs s.log + k := by
  intro k
  induction k with
  | zero => intro i s; exact ⟨rfl, rfl⟩
  | succ k0 ih =>
    intro i s
    have hstep := ih (i + 1) (micro_step 1 f epoch s i)
    constructor
    · show (micro_loop 1 f epoch (i + 1) k0 (micro_step 1 f epoch s i)).num_steps = _
      rw [hstep.1, micro_step_num_steps, accumulation_step_one]
      simp
      omega
    · show count_train_logs (micro_loop 1 f epoch (i + 1) k0 (micro_step 1 f epoch s i)).log = _
      rw [hstep.2, micro_step_log, accumulation_step_one, count_train_logs_append]
      simp [count_train_logs, List.countP_cons, is_train_log]
      omega

theorem evaluate_count_train (vals : List ℚ) (s : LoopState) :
    count_train_logs (evaluate vals s).log = count_train_logs s.log := by
  rw [evaluate_log, count_train_logs_append]
  simp [count_train_logs, List.countP_cons, is_train_log]

theorem epoch_body_one_counts (cfg : LoopConfig) (f : ℕ → ℕ → ℚ) (vals : List ℚ)
    (s : LoopState) (epoch : ℕ) (hgas : cfg.gradient_accumulation_steps = 1) :
    (epoch_body cfg f vals s epoch).num_steps = s.num_steps + cfg.steps_per_epoch
    ∧ count_train_logs (epoch_body cfg f vals s epoch).log
        = count_train_logs s.log + cfg.steps_per_epoch := by
  constructor
  · rw [epoch_body_num_steps, hgas, Nat.mul_one]
    exact (micro_loop_one f epoch cfg.steps_per_epoch 0 _).1
  · rw [epoch_body_log, count_train_logs_append, evaluate_count_train, hgas, Nat.mul_one]
    rw [(micro_loop_one f epoch cfg.steps_per_epoch 0 _).2]
    have hend : count_train_logs [Event.epochEnd epoch] = 0 := by
      simp [count_train_logs, List.countP_cons, is_train_log]
    rw [hend]
    rfl

/-! ## Log prefixes across epochs -/

theorem epoch_body_log_append (cfg : LoopConfig) (f : ℕ → ℕ → ℚ) (vals : List ℚ)
    (s : LoopState) (epoch : ℕ) :
    ∃ t, (epoch_body cfg f vals s epoch).log = s.log ++ t := by
  obtain ⟨t0, ht0⟩ := micro_loop_log_append cfg.gradient_accumulation_steps f epoch
    (cfg.steps_per_epoch * cfg.gradient_accumulation_steps) 0
    { reset_metrics s with local_step := 0 }
  refine ⟨t0 ++
    [Event.valLog (micro_loop cfg.gradient_accumulation_steps f epoch 0
        (cfg.steps_per_epoch * cfg.gradient_accumulation_steps)
        { reset_metrics s with local_step := 0 }).num_steps
      [("val_" ++ "total_loss",
        mean_result (mean_update_all (micro_loop cfg.gradient_accumulation_steps f epoch 0
          (cfg.steps_per_epoch * cfg.gradient_accumulation_steps)
          { reset_metrics s with local_step := 0 }).validM vals))],
     Event.epochEnd epoch], ?_⟩
  rw [epoch_body_log, evaluate_log, ht0]
  show (s.log ++ t0) ++ _ ++ _ = _
  simp [List.append_assoc]

theorem epoch_fold_log_append (cfg : LoopConfig) (f : ℕ → ℕ → ℚ) (vals : List ℚ) :
    ∀ (l : List ℕ) (s : LoopState),
      ∃ t, ((l.foldl (epoch_body cfg f vals) s)).log = s.log ++ t := by
  intro l
  induction l with
  | nil => intro s; exact ⟨[], by simp⟩
  | cons ep rest ih =>
    intro s
    obtain ⟨t1, ht1⟩ := epoch_body_log_append cfg f vals s ep
    obtain ⟨t2, ht2⟩ := ih (epoch_body cfg f vals s ep)
    exact ⟨t1 ++ t2, by rw [List.foldl_cons, ht2, ht1, List.append_assoc]⟩

/-! ## C3: evaluation cadence and the one-epoch scenario -/

/-- C3: each epoch consumes exactly `steps_per_epoch * gradient_accumulation_steps`
micro-batches and then runs exactly one full evaluation pass whose log entry
carries the completely folded validation registry under `val_`-prefixed keys;
a run performs one validation pass per epoch plus one initial pass exactly
when `skip_early_eval` is unset; and with `epochs = 1`,
`gradient_accumulation_steps = 1`, `skip_early_eval = false` the run's first
log entry is the initial validation log, there are `steps_per_epoch` train
batch logs, two validation logs in total, and `num_steps` rises by exactly
`steps_per_epoch`. -/
theorem c3_epoch_eval_cadence :
    (∀ (cfg : LoopConfig) (f : ℕ → ℕ → ℚ) (vals : List ℚ) (s : LoopState) (epoch : ℕ),
      (epoch_body cfg f vals s epoch).consumed
        = s.consumed + cfg.steps_per_epoch * cfg.gradient_accumulation_steps
      ∧ count_val_logs (epoch_body cfg f vals s epoch).log = count_val_logs s.log + 1)
    ∧ (∀ (vals : List ℚ) (s : LoopState),
        (evaluate vals s).log
          = s.log ++
            [Event.valLog s.num_steps
              [("val_" ++ "total_loss", mean_result (mean_update_all s.validM vals))]])
    ∧ (∀ (ie ep gas spe : ℕ) (f : ℕ → ℕ → ℚ) (vals : List ℚ),
        count_val_logs (run_train_sim ⟨ie, ep, gas, spe, false⟩ f vals).log = 1 + (ep - ie)
        ∧ count_val_logs (run_train_sim ⟨ie, ep, gas, spe, true⟩ f vals).log = ep - ie)
    ∧ (∀ (spe : ℕ) (f : ℕ → ℕ → ℚ) (vals : List ℚ),
        (run_train_sim ⟨0, 1, 1, spe, false⟩ f vals).log.head?
          = some (Event.valLog 0
              [("val_" ++ "total_loss", mean_result (mean_update_all mean_init vals))])
        ∧ count_train_logs (run_train_sim ⟨0, 1, 1, spe, false⟩ f vals).log = spe
        ∧ count_val_logs (run_train_sim ⟨0, 1, 1, spe, false⟩ f vals).log = 2
        ∧ (run_train_sim ⟨0, 1, 1, spe, false⟩ f vals).num_steps = spe) := by
  refine ⟨fun cfg f vals s epoch =>
      ⟨epoch_body_consumed cfg f vals s epoch, epoch_body_count_val cfg f vals s epoch⟩,
    fun vals s => evaluate_log vals s, ?_, ?_⟩
  · intro ie ep gas spe f vals
    constructor
    · show count_val_logs ((List.range' ie (ep - ie)).foldl
          (epoch_body ⟨ie, ep, gas, spe, false⟩ f vals) (evaluate vals init_state)).log = _
      rw [epoch_fold_count_val, evaluate_count_val]
      have h0 : count_val_logs init_state.log = 0 := rfl
      rw [h0, List.length_range']
    · show count_val_logs ((List.range' ie (ep - ie)).foldl
          (epoch_body ⟨ie, ep, gas, spe, true⟩ f vals) init_state).log = _
      rw [epoch_fold_count_val]
      have h0 : count_val_logs init_state.log = 0 := rfl
      rw [h0, List.length_range']
      omega
  · intro spe f vals
    have hrun : run_train_sim ⟨0, 1, 1, spe, false⟩ f vals
        = epoch_body ⟨0, 1, 1, spe, false⟩ f vals (evaluate vals init_state) 0 := by
      show (List.range' 0 (1 - 0)).foldl (epoch_body ⟨0, 1, 1, spe, false⟩ f vals)
          (evaluate vals init_state) = _
      rfl
    refine ⟨?_, ?_, ?_, ?_⟩
    · rw [hrun]
      obtain ⟨t, ht⟩ := epoch_body_log_append ⟨0, 1, 1, spe, false⟩ f vals
        (evaluate vals init_state) 0
      rw [ht, evaluate_log]
      rfl
    · rw [hrun, (epoch_body_one_counts ⟨0, 1, 1, spe, false⟩ f vals
        (evaluate vals init_state) 0 rfl).2, evaluate_count_train]
      show 0 + spe = spe
      exact Nat.zero_add spe
    · rw [hrun, epoch_body_count_val, evaluate_count_val]
      rfl
    · rw [hrun, (epoch_body_one_counts ⟨0, 1, 1, spe, false⟩ f vals
        (evaluate vals init_state) 0 rfl).1, evaluate_num_steps]
      show 0 + spe = spe
      exact Nat.zero_add spe

/-! ## C1: the accumulation-boundary predicate -/

theorem start_state_no_micro (sk : Bool) (vals : List ℚ) (e i : ℕ) (b : Bool) :
    Event.micro e i b ∉ (if sk then init_state else evaluate vals init_state).log := by
  cases sk
  · intro hmem
    simp only [if_neg (by decide : ¬(false = true))] at hmem
    rw [evaluate_log] at hmem
    simp [init_state] at hmem
  · intro hmem
    simp only [if_pos rfl] at hmem
    simp [init_state] at hmem

theorem start_state_num_steps (sk : Bool) (vals : List ℚ) :
    (if sk then init_state else evaluate vals init_state).num_steps = 0 := by
  cases sk <;> rfl

/-- C1: line 356's boundary predicate holds exactly when
`(step + 1) % gradient_accumulation_steps == 0` or the global step counter is
zero; and in a whole run with `gradient_accumulation_steps = 4` (starting at
epoch 0, with a non-empty epoch) the micro-steps flagged as boundaries are
exactly those at indices `3, 7, 11, ...` within each epoch, plus the very
first micro-step of the run. -/
theorem c1_accumulation_boundary :
    (∀ (gas ns i : ℕ), accumulation_step gas ns i = true ↔ ((i + 1) % gas = 0 ∨ ns = 0))
    ∧ (∀ (cfg : LoopConfig) (f : ℕ → ℕ → ℚ) (vals : List ℚ) (e i : ℕ) (b : Bool),
        cfg.initial_epoch = 0 → cfg.gradient_accumulation_steps = 4 →
        1 ≤ cfg.steps_per_epoch →
        Event.micro e i b ∈ (run_train_sim cfg f vals).log →
        (b = true ↔ ((i + 1) % 4 = 0 ∨ (e = 0 ∧ i = 0)))) := by
  constructor
  · intro gas ns i
    simp [accumulation_step]
  · intro cfg f vals e i b h0 h4 hspe hmem
    simp only [run_train_sim] at hmem
    rw [h0, Nat.sub_zero] at hmem
    cases hep : cfg.epochs with
    | zero =>
      rw [hep] at hmem
      exact absurd hmem (start_state_no_micro cfg.skip_early_eval vals e i b)
    | succ n =>
      rw [hep] at hmem
      have hsplit : List.range' 0 (n + 1) = 0 :: List.range' 1 n := rfl
      rw [hsplit, List.foldl_cons] at hmem
      have hs1num : (if cfg.skip_early_eval then init_state else evaluate vals init_state).num_steps
          = 0 := start_state_num_steps cfg.skip_early_eval vals
      have hk : 1 ≤ cfg.steps_per_epoch * cfg.gradient_accumulation_steps := by
        rw [h4]; omega
      have hpos1 : 1 ≤ (epoch_body cfg f vals
          (if cfg.skip_early_eval then init_state else evaluate vals init_state) 0).num_steps := by
        rw [epoch_body_num_steps]
        exact micro_loop_num_steps_pos_start cfg.gradient_accumulation_steps f 0
          (cfg.steps_per_epoch * cfg.gradient_accumulation_steps) _ hs1num hk
      rcases epoch_fold_micro_mem cfg f vals (List.range' 1 n)
          (epoch_body cfg f vals
            (if cfg.skip_early_eval then init_state else evaluate vals init_state) 0)
          hpos1 e i b hmem with hin | hnew
      · rcases epoch_body_micro_mem_start cfg f vals
            (if cfg.skip_early_eval then init_state else evaluate vals init_state) 0
            hs1num e i b hin with hold | hfirst
        · exact absurd hold (start_state_no_micro cfg.skip_early_eval vals e i b)
        · obtain ⟨he, hiff⟩ := hfirst
          rw [h4] at hiff
          subst he
          simpa using hiff
      · obtain ⟨hmem_e, hb⟩ := hnew
        have he1 : 1 ≤ e := by
          rw [List.mem_range'] at hmem_e
          omega
        rw [h4] at hb
        rw [hb]
        constructor
        · intro hbeq
          exact Or.inl (beq_iff_eq.mp hbeq)
        · intro hor
          rcases hor with hmod | he0
          · exact beq_iff_eq.mpr hmod
          · exact absurd he0.1 (by omega)

/-- Closed witness for C1: the predicate instance at `gas = 4`, and the trace
instance at the boundary micro-step of index 3 in a one-epoch run. -/
theorem c1_accumulation_boundary_witness :
    (accumulation_step 4 5 3 = true ↔ ((3 + 1) % 4 = 0 ∨ 5 = 0))
    ∧ (true = true ↔ ((3 + 1) % 4 = 0 ∨ (0 = 0 ∧ 3 = 0))) :=
  ⟨c1_accumulation_boundary.1 4 5 3,
   c1_accumulation_boundary.2 ⟨0, 1, 4, 1, true⟩ (fun _ _ => 0) [] 0 3 true rfl rfl
     (by decide) (by decide)⟩

end CoRT
